import Mathlib

/-!
Shallow embedding of the generator/searcher correlation engine
(`src/main.cpp`): a producer pushes `Message` records into a FIFO
container, a single consumer (the `Searcher`) pops them and either
matches them against a time-bounded pending buffer or stores them.

Timestamps are modelled as natural numbers of nanoseconds (the
resolution of `std::chrono::steady_clock`); the C++
`duration_cast<seconds>` truncation is modelled by natural division.
-/

namespace GenSearch

/-- The record type of `main.cpp` (`struct Message`): a phone number and a
login, both plain strings. -/
structure Message where
  phone_number : String
  login : String
deriving DecidableEq, Repr

/-- `Message::IsValid`: at least one field non-empty. Defined in the source
but never called. -/
def Message.IsValid (m : Message) : Bool :=
  !m.phone_number.isEmpty || !m.login.isEmpty

/-- Monotonic-clock timestamps, in nanoseconds. -/
abbrev Timestamp := Nat

/-- One element of `Searcher::_buffer`: `std::pair<timestamp, Message>`. -/
abbrev Entry := Timestamp × Message

/-- `Searcher::_buffer`: a list whose head is the front (newest position). -/
abbrev Buffer := List Entry

/-- `Searcher::_delay`: the expiry window, 5 seconds. -/
def delay : Nat := 5

def nanosPerSecond : Nat := 1000000000

/-- `duration_cast<seconds>(now - t).count()`: age in whole seconds
(truncated). For `t > now` the C++ count is negative and the expiry
comparison fails; `Nat` subtraction gives `0`, failing it likewise. -/
def secondsDiff (now t : Timestamp) : Nat :=
  (now - t) / nanosPerSecond

/-- The predicate of the `find_if` in `Searcher::remove_expired`
(line 131): `diff.count() >= _delay`. -/
def isExpired (now : Timestamp) (e : Entry) : Bool :=
  decide (delay ≤ secondsDiff now e.fst)

/-- `Searcher::remove_expired` (lines 124-147): find the first entry
(front-to-back) whose age is at least `_delay` seconds and erase from it
to the end; the survivors are the maximal front segment of unexpired
entries. `now` is the clock value captured inside `remove_expired`
itself (line 126). -/
def remove_expired (now : Timestamp) (buf : Buffer) : Buffer :=
  buf.takeWhile (fun e => !isExpired now e)

/-- The entries erased (and logged) by `Searcher::remove_expired`:
everything from the first expired entry to the end. -/
def removedExpired (now : Timestamp) (buf : Buffer) : Buffer :=
  buf.dropWhile (fun e => !isExpired now e)

/-- The score of line 159: `(msg.login == it->second.login) +
(msg.phone_number == it->second.phone_number)` (bools summed as 0/1). -/
def score (msg m : Message) : Nat :=
  (if msg.login == m.login then 1 else 0) +
    (if msg.phone_number == m.phone_number then 1 else 0)

/-- The candidate loop of `Searcher::search` (lines 155-165), iterating
`rbegin()` to `rend()` (oldest entry first).  The accumulator carries the
current `best_candidate` (as a front-to-back index into the buffer, `none`
for `end()`) and `max_score`.  Faithful to the source, the displacing
branch executes `max_score = true`, i.e. stores `1` — not the entry's
score. -/
def searchLoop (msg : Message) :
    List (Nat × Entry) → Option Nat → Nat → Option Nat
  | [], best, _ => best
  | p :: rest, best, maxScore =>
    if maxScore < score msg p.2.2 then
      searchLoop msg rest (some p.1) 1
    else
      searchLoop msg rest best maxScore

/-- The search phase of `Searcher::search` (after its `remove_expired`
call): scan the buffer back-to-front, return the best candidate's
front-to-back index, or `none` when no entry ever beat `max_score`
(which starts at `0`). -/
def find_best_match (msg : Message) (buf : Buffer) : Option Nat :=
  searchLoop msg buf.enum.reverse none 0

/-- A `[Searcher]: Found` report line (lines 194-197): the score recomputed
against the found entry, the incoming record and the matched pending
record. -/
structure Report where
  score : Nat
  incoming : Message
  matched : Message
deriving DecidableEq, Repr

/-- One iteration of the consumer loop body after `pop` (lines 179-203):
capture `time` (`tLoop`, line 180), run `search` — which first runs
`remove_expired` with its own, separately captured clock value `tExp`
(line 126) — then either erase the found entry and emit a report, or
insert the incoming record at the front tagged with `tLoop`. -/
def processStep (tLoop tExp : Timestamp) (buf : Buffer) (msg : Message) :
    Buffer × Option Report :=
  let b := remove_expired tExp buf
  match find_best_match msg b with
  | some i =>
    match b.get? i with
    | some e => (b.eraseIdx i, some ⟨score msg e.2, msg, e.2⟩)
    | none => (b, none)
  | none => ((tLoop, msg) :: b, none)

/-! ### Expiry lemmas -/

/-- An entry whose timestamp is no later than that of an expired entry is
itself expired. -/
lemma isExpired_mono (now : Timestamp) (e e' : Entry) (h : e'.fst ≤ e.fst)
    (he : isExpired now e = true) : isExpired now e' = true := by
  simp only [isExpired, decide_eq_true_eq] at he ⊢
  exact le_trans he
    (Nat.div_le_div_right (Nat.sub_le_sub_left h now))

/-- Claim C2: `remove_expired` splits the buffer contiguously: the survivors
followed by the removed entries reassemble the buffer, no survivor is
expired, the first removed entry (the cut point) is expired, under the
non-increasing-timestamp invariant every removed entry is expired, and
when no entry is expired nothing is removed. -/
theorem remove_expired_cut (now : Timestamp) (buf : Buffer) :
    remove_expired now buf ++ removedExpired now buf = buf ∧
    (∀ e ∈ remove_expired now buf, isExpired now e = false) ∧
    (∀ h : removedExpired now buf ≠ [],
      isExpired now ((removedExpired now buf).head h) = true) ∧
    (List.Pairwise (fun a b : Entry => b.fst ≤ a.fst) buf →
      ∀ e ∈ removedExpired now buf, isExpired now e = true) ∧
    ((∀ e ∈ buf, isExpired now e = false) →
      remove_expired now buf = buf ∧ removedExpired now buf = []) := by
  refine ⟨List.takeWhile_append_dropWhile _ _, ?_, ?_, ?_, ?_⟩
  · intro e he
    have h1 := List.mem_takeWhile_imp he
    simpa using h1
  · intro h
    have h2 := List.head_dropWhile_not (fun e => !isExpired now e) buf h
    simpa using h2
  · intro hp e he
    induction buf with
    | nil => simp [removedExpired] at he
    | cons a l ih =>
      rcases hpa : isExpired now a with _ | _
      · rw [removedExpired, List.dropWhile_cons] at he
        simp only [hpa, Bool.not_false, if_pos] at he
        exact ih (List.pairwise_cons.mp hp).2 he
      · rw [removedExpired, List.dropWhile_cons] at he
        simp only [hpa, Bool.not_true] at he
        rcases List.mem_cons.mp (by simpa using he) with rfl | htl
        · exact hpa
        · have hle : e.fst ≤ a.fst := (List.pairwise_cons.mp hp).1 e htl
          exact isExpired_mono now a e hle hpa
  · intro hall
    have hnil : removedExpired now buf = [] := by
      rw [removedExpired, List.dropWhile_eq_nil_iff]
      intro x hx
      simp [hall x hx]
    refine ⟨?_, hnil⟩
    have h0 := List.takeWhile_append_dropWhile
      (fun e => !isExpired now e) buf
    rw [show List.dropWhile (fun e => !isExpired now e) buf =
          removedExpired now buf from rfl, hnil, List.append_nil] at h0
    exact h0

/-- Witness for C2: ages [1s, 2s, 6s, 7s] (front to back) against `now` =
10s with the 5-second window: the survivors are the entries aged 1s and
2s, the removed entries are those aged 6s and 7s, and every removed entry
is expired. -/
theorem remove_expired_cut_witness :
    remove_expired 10000000000
        [(9000000000, ⟨"p1", "l1"⟩), (8000000000, ⟨"p2", "l2"⟩),
         (4000000000, ⟨"p3", "l3"⟩), (3000000000, ⟨"p4", "l4"⟩)] =
      [(9000000000, ⟨"p1", "l1"⟩), (8000000000, ⟨"p2", "l2"⟩)] ∧
    removedExpired 10000000000
        [(9000000000, ⟨"p1", "l1"⟩), (8000000000, ⟨"p2", "l2"⟩),
         (4000000000, ⟨"p3", "l3"⟩), (3000000000, ⟨"p4", "l4"⟩)] =
      [(4000000000, ⟨"p3", "l3"⟩), (3000000000, ⟨"p4", "l4"⟩)] ∧
    (∀ e ∈ removedExpired 10000000000
        [(9000000000, ⟨"p1", "l1"⟩), (8000000000, ⟨"p2", "l2"⟩),
         (4000000000, ⟨"p3", "l3"⟩), (3000000000, ⟨"p4", "l4"⟩)],
      isExpired 10000000000 e = true) :=
  ⟨by decide, by decide,
    (remove_expired_cut 10000000000
        [(9000000000, ⟨"p1", "l1"⟩), (8000000000, ⟨"p2", "l2"⟩),
         (4000000000, ⟨"p3", "l3"⟩), (3000000000, ⟨"p4", "l4"⟩)]).2.2.2.1
      (by decide)⟩

/-! ### Buffer-order invariant (C3) -/

/-- Buffer states reachable from the empty buffer through the operations
actually performed on `Searcher::_buffer`: insertion at the front with a
timestamp no older than any previously used one (`emplace_front`, line
202), expiry trimming (`remove_expired`, line 145) at an arbitrary clock
value, and erasure of a matched entry (line 198).  The index tracks an
upper bound of the timestamps used so far (the monotonic clock). -/
inductive Reachable : Timestamp → Buffer → Prop
  | start : Reachable 0 []
  | insert {t : Timestamp} {buf : Buffer} (t' : Timestamp) (msg : Message) :
      Reachable t buf → t ≤ t' → Reachable t' ((t', msg) :: buf)
  | expire {t : Timestamp} {buf : Buffer} (tE : Timestamp) :
      Reachable t buf → Reachable t (remove_expired tE buf)
  | removeAt {t : Timestamp} {buf : Buffer} (i : Nat) :
      Reachable t buf → Reachable t (buf.eraseIdx i)

/-- Every reachable buffer is bounded by its clock and sorted by
non-increasing timestamp. -/
lemma Reachable.bounded_sorted {t : Timestamp} {buf : Buffer}
    (h : Reachable t buf) :
    (∀ e ∈ buf, e.fst ≤ t) ∧
      List.Pairwise (fun a b : Entry => b.fst ≤ a.fst) buf := by
  induction h with
  | start => simp
  | insert t' msg _ hle ih =>
    obtain ⟨hb, hs⟩ := ih
    constructor
    · intro e he
      rcases List.mem_cons.mp he with rfl | he
      · exact le_refl _
      · exact le_trans (hb e he) hle
    · exact List.pairwise_cons.mpr
        ⟨fun e he => le_trans (hb e he) hle, hs⟩
  | expire tE _ ih =>
    obtain ⟨hb, hs⟩ := ih
    exact ⟨fun e he => hb e ((List.takeWhile_sublist _).subset he),
      hs.sublist (List.takeWhile_sublist _)⟩
  | removeAt i _ ih =>
    obtain ⟨hb, hs⟩ := ih
    exact ⟨fun e he => hb e ((List.eraseIdx_sublist _ i).subset he),
      hs.sublist (List.eraseIdx_sublist _ i)⟩

/-- Claim C3: at every observation point, a buffer reachable from the empty
buffer through front insertion (with a timestamp no older than any used
before), expiry trimming and matched-entry removal has non-increasing
arrival timestamps from front to back. -/
theorem reachable_sorted {t : Timestamp} {buf : Buffer}
    (h : Reachable t buf) :
    List.Pairwise (fun a b : Entry => b.fst ≤ a.fst) buf :=
  h.bounded_sorted.2

/-- Witness for C3: the state reached by inserting at time 3, trimming at
time 4, then inserting at time 7 is sorted newest-first. -/
theorem reachable_sorted_witness :
    List.Pairwise (fun a b : Entry => b.fst ≤ a.fst)
      [(7, (⟨"p2", "l2"⟩ : Message)),
       (3, (⟨"p1", "l1"⟩ : Message))] := by
  have h0 : Reachable 3 [(3, (⟨"p1", "l1"⟩ : Message))] :=
    Reachable.insert 3 ⟨"p1", "l1"⟩ Reachable.start (by decide)
  have h1 : Reachable 3
      (remove_expired 4 [(3, (⟨"p1", "l1"⟩ : Message))]) :=
    Reachable.expire 4 h0
  have h2 : remove_expired 4 [(3, (⟨"p1", "l1"⟩ : Message))] =
      [(3, (⟨"p1", "l1"⟩ : Message))] := by decide
  rw [h2] at h1
  exact reachable_sorted
    (Reachable.insert 7 ⟨"p2", "l2"⟩ h1 (by decide))

/-! ### Search-loop lemmas -/

/-- If no entry in the remaining scan beats the running `max_score`, the
candidate is unchanged. -/
lemma searchLoop_no_beat (msg : Message) :
    ∀ (l : List (Nat × Entry)) (best : Option Nat) (ms : Nat),
      (∀ p ∈ l, score msg p.2.2 ≤ ms) → searchLoop msg l best ms = best := by
  intro l
  induction l with
  | nil => intro best ms _; rfl
  | cons p rest ih =>
    intro best ms hall
    rw [searchLoop]
    have hp : score msg p.2.2 ≤ ms := hall p (List.mem_cons_self p rest)
    rw [if_neg (by omega)]
    exact ih best ms (fun q hq => hall q (List.mem_cons_of_mem p hq))

/-- If the scan returns `some i`, then either that was already the incoming
candidate or some scanned pair carries index `i` and a score strictly
above the incoming `max_score` (which the loop never stores above `1`). -/
lemma searchLoop_some (msg : Message) :
    ∀ (l : List (Nat × Entry)) (best : Option Nat) (ms : Nat) (i : Nat),
      ms ≤ 1 → searchLoop msg l best ms = some i →
      best = some i ∨ ∃ p ∈ l, p.1 = i ∧ ms < score msg p.2.2 := by
  intro l
  induction l with
  | nil => intro best ms i _ h; exact Or.inl h
  | cons p rest ih =>
    intro best ms i hms h
    rw [searchLoop] at h
    by_cases hbeat : ms < score msg p.2.2
    · rw [if_pos hbeat] at h
      rcases ih (some p.1) 1 i (le_refl 1) h with h1 | ⟨q, hq, hqi, hqs⟩
      · have : p.1 = i := Option.some.inj h1
        exact Or.inr ⟨p, List.mem_cons_self p rest, this, hbeat⟩
      · exact Or.inr ⟨q, List.mem_cons_of_mem p hq, hqi, by omega⟩
    · rw [if_neg hbeat] at h
      rcases ih best ms i hms h with h1 | ⟨q, hq, hqi, hqs⟩
      · exact Or.inl h1
      · exact Or.inr ⟨q, List.mem_cons_of_mem p hq, hqi, hqs⟩

/-- A successful `find_best_match` names an actual buffer entry whose score
against the incoming record is strictly positive. -/
lemma find_best_match_some (msg : Message) (buf : Buffer) (i : Nat)
    (h : find_best_match msg buf = some i) :
    ∃ e : Entry, buf.get? i = some e ∧ 0 < score msg e.2 := by
  rcases searchLoop_some msg buf.enum.reverse none 0 i (by omega) h with
    h1 | ⟨p, hp, hpi, hps⟩
  · exact absurd h1 (by simp)
  · refine ⟨p.2, ?_, by simpa [hpi] using hps⟩
    have hmem : (p.1, p.2) ∈ buf.enum := by
      simpa using List.mem_reverse.mp hp
    have := List.mk_mem_enum_iff_getElem?.mp hmem
    rw [List.get?_eq_getElem?, ← hpi]
    exact this

/-- A successful `find_best_match` returns an index inside the buffer. -/
lemma find_best_match_lt_length (msg : Message) (buf : Buffer) (i : Nat)
    (h : find_best_match msg buf = some i) : i < buf.length := by
  obtain ⟨e, he, -⟩ := find_best_match_some msg buf i h
  rw [List.get?_eq_getElem?] at he
  exact (List.getElem?_eq_some_iff.mp he).1

/-- Claim C4: the score of an incoming record against a pending entry is
the number of equal fields, at most 2; a matched candidate always has
strictly positive score; and when every pending entry scores 0 the search
returns none. -/
theorem find_best_match_positive (msg : Message) (buf : Buffer) :
    (∀ m : Message, score msg m ≤ 2) ∧
    (∀ i, find_best_match msg buf = some i →
      ∃ e : Entry, buf.get? i = some e ∧ 0 < score msg e.2) ∧
    ((∀ e ∈ buf, score msg e.2 = 0) → find_best_match msg buf = none) := by
  refine ⟨?_, fun i h => find_best_match_some msg buf i h, ?_⟩
  · intro m
    rw [score]
    split <;> split <;> omega
  · intro hall
    rw [find_best_match]
    apply searchLoop_no_beat
    intro p hp
    have hmem : (p.1, p.2) ∈ buf.enum := by
      simpa using List.mem_reverse.mp hp
    have hg := List.mk_mem_enum_iff_getElem?.mp hmem
    have hbuf : p.2 ∈ buf := by
      have := List.getElem?_eq_some_iff.mp hg
      obtain ⟨hlt, hget⟩ := this
      rw [← hget]
      exact List.getElem_mem hlt
    exact le_of_eq (hall p.2 hbuf)

/-- Witness for C4: the spec's three concrete scores, and a buffer whose
single entry scores 0 yields no match. -/
theorem find_best_match_positive_witness :
    score ⟨"A", "X"⟩ ⟨"A", "Y"⟩ = 1 ∧
    score ⟨"A", "X"⟩ ⟨"A", "X"⟩ = 2 ∧
    score ⟨"A", "X"⟩ ⟨"B", "Y"⟩ = 0 ∧
    find_best_match ⟨"A", "X"⟩ [(0, ⟨"B", "Y"⟩)] = none :=
  ⟨by decide, by decide, by decide,
    (find_best_match_positive ⟨"A", "X"⟩ [(0, ⟨"B", "Y"⟩)]).2.2 (by decide)⟩

/-- Claim C1 (failing input): with two pending entries both scoring 2
against the incoming record — front (index 0, newer) and back (index 1,
older) — the loop returns index 0, the newer entry, because line 162
stores `true` (i.e. `1`) into `max_score` instead of the score, so the
later tied entry's score 2 still exceeds the stored 1.  With both entries
scoring 1 the oldest is returned, as the claim's two-score-1 instance
states. -/
theorem find_best_match_tie_break_eval :
    score ⟨"A", "X"⟩ ⟨"A", "X"⟩ = 2 ∧
    find_best_match ⟨"A", "X"⟩
      [(1, ⟨"A", "X"⟩), (0, ⟨"A", "X"⟩)] = some 0 ∧
    find_best_match ⟨"A", "X"⟩
      [(1, ⟨"A", "Y"⟩), (0, ⟨"B", "X"⟩)] = some 1 := by
  refine ⟨by decide, by decide, by decide⟩

/-- Claim C6: after the expiry step, a found match removes exactly the
matched entry (the incoming record is not stored) so the buffer shrinks
by one and a report is emitted; an unsuccessful search inserts the
incoming record at the front tagged with the loop's timestamp, growing
the buffer by one with no report. -/
theorem match_removes_nonmatch_inserts (tLoop tExp : Timestamp)
    (buf : Buffer) (msg : Message) :
    (∀ i, find_best_match msg (remove_expired tExp buf) = some i →
      (processStep tLoop tExp buf msg).1 =
        (remove_expired tExp buf).eraseIdx i ∧
      (processStep tLoop tExp buf msg).1.length + 1 =
        (remove_expired tExp buf).length ∧
      (processStep tLoop tExp buf msg).2.isSome = true) ∧
    (find_best_match msg (remove_expired tExp buf) = none →
      (processStep tLoop tExp buf msg).1 =
        (tLoop, msg) :: remove_expired tExp buf ∧
      (processStep tLoop tExp buf msg).1.length =
        (remove_expired tExp buf).length + 1 ∧
      (processStep tLoop tExp buf msg).2 = none) := by
  constructor
  · intro i hfind
    obtain ⟨e, he, -⟩ :=
      find_best_match_some msg (remove_expired tExp buf) i hfind
    rw [List.get?_eq_getElem?] at he
    have hlt : i < (remove_expired tExp buf).length :=
      find_best_match_lt_length msg (remove_expired tExp buf) i hfind
    have h1 : (processStep tLoop tExp buf msg).1 =
        (remove_expired tExp buf).eraseIdx i := by
      rw [processStep]; simp [hfind, he]
    refine ⟨h1, ?_, ?_⟩
    · rw [h1]; exact List.length_eraseIdx_add_one hlt
    · rw [processStep]; simp [hfind, he]
  · intro hfind
    have h1 : (processStep tLoop tExp buf msg).1 =
        (tLoop, msg) :: remove_expired tExp buf := by
      rw [processStep]; simp [hfind]
    refine ⟨h1, ?_, ?_⟩
    · rw [h1]; simp
    · rw [processStep]; simp [hfind]

/-- Witness for C6: a matching incoming record shrinks a one-entry buffer
to empty; a non-matching one grows the empty buffer to one entry. -/
theorem match_removes_nonmatch_inserts_witness :
    ((processStep 0 0 [(0, ⟨"A", "X"⟩)] ⟨"A", "X"⟩).1 =
        (remove_expired 0 [(0, ⟨"A", "X"⟩)]).eraseIdx 0 ∧
      (processStep 0 0 [(0, ⟨"A", "X"⟩)] ⟨"A", "X"⟩).1.length + 1 =
        (remove_expired 0 [(0, ⟨"A", "X"⟩)]).length ∧
      (processStep 0 0 [(0, ⟨"A", "X"⟩)] ⟨"A", "X"⟩).2.isSome = true) ∧
    ((processStep 0 0 [] ⟨"B", "Y"⟩).1 = [(0, ⟨"B", "Y"⟩)] ∧
      (processStep 0 0 [] ⟨"B", "Y"⟩).1.length =
        (remove_expired 0 ([] : Buffer)).length + 1 ∧
      (processStep 0 0 [] ⟨"B", "Y"⟩).2 = none) :=
  ⟨(match_removes_nonmatch_inserts 0 0 [(0, ⟨"A", "X"⟩)] ⟨"A", "X"⟩).1 0
      (by decide),
    (match_removes_nonmatch_inserts 0 0 [] ⟨"B", "Y"⟩).2 (by decide)⟩

/-! ### Clock usage within one pipeline step (C5) -/

/-- Claim C5 (counterexample): the pipeline step does not observe a single
snapshot of now.  With a pending entry from time 0, a loop clock of 4s
and a `remove_expired`-internal clock of 5s, the entry is expired and
dropped, whereas running the whole step on the loop's snapshot (4s for
both) keeps it — so the expiry decision does not use the loop's
timestamp. -/
theorem processStep_not_single_clock :
    processStep (4 * nanosPerSecond) (5 * nanosPerSecond)
        [(0, ⟨"A", "X"⟩)] ⟨"B", "Y"⟩ ≠
      processStep (4 * nanosPerSecond) (4 * nanosPerSecond)
        [(0, ⟨"A", "X"⟩)] ⟨"B", "Y"⟩ := by
  decide

/-- Claim C5 (amended): the consumer loop captures one timestamp per step
(line 180) and uses it only as the inserted record's arrival time, while
`remove_expired` captures its own, separately taken timestamp (line 126)
that alone determines the expiry and (through the surviving entries) the
match outcome: the report is independent of the loop's timestamp, and an
unmatched record is stored with the loop's timestamp over the buffer
trimmed by the other clock. -/
theorem processStep_clock_usage (tLoop tLoop' tExp : Timestamp)
    (buf : Buffer) (msg : Message) :
    (processStep tLoop tExp buf msg).2 =
      (processStep tLoop' tExp buf msg).2 ∧
    (find_best_match msg (remove_expired tExp buf) = none →
      (processStep tLoop tExp buf msg).1 =
        (tLoop, msg) :: remove_expired tExp buf) := by
  constructor
  · rw [processStep, processStep]
    rcases h : find_best_match msg (remove_expired tExp buf) with _ | i
    · simp [h]
    · rcases hg : (remove_expired tExp buf)[i]? with _ | e
      · simp [h, hg]
      · simp [h, hg]
  · intro h
    rw [processStep]
    simp [h]

/-- Witness for C5's amended statement: an incoming record that matches
nothing is stored with the loop clock 7 while survival was decided by the
expiry clock 9. -/
theorem processStep_clock_usage_witness :
    (processStep 7 9 [(0, ⟨"A", "X"⟩)] ⟨"B", "Y"⟩).2 =
      (processStep 8 9 [(0, ⟨"A", "X"⟩)] ⟨"B", "Y"⟩).2 ∧
    (processStep 7 9 [(0, ⟨"A", "X"⟩)] ⟨"B", "Y"⟩).1 =
      (7, ⟨"B", "Y"⟩) :: remove_expired 9 [(0, ⟨"A", "X"⟩)] :=
  ⟨(processStep_clock_usage 7 8 9 [(0, ⟨"A", "X"⟩)] ⟨"B", "Y"⟩).1,
    (processStep_clock_usage 7 8 9 [(0, ⟨"A", "X"⟩)] ⟨"B", "Y"⟩).2
      (by decide)⟩

/-! ### The shared FIFO container (C7) -/

/-- `Container::push` (lines 49-54): append at the tail of the queue. -/
def Container.push {α : Type} (q : List α) (x : α) : List α := q ++ [x]

/-- `Container::pop` (lines 61-70), as completed by the condition-variable
wait: when the queue is non-empty it returns the head and removes it;
when empty the call stays blocked and completes nothing. -/
def Container.popFront {α : Type} : List α → Option (α × List α)
  | [] => none
  | x :: rest => some (x, rest)

/-- Events on the shared container: a producer push of a value, or a
consumer pop attempt. -/
inductive QEvent (α : Type) where
  | push (x : α)
  | pop

/-- The values pushed by a trace of events, in order. -/
def pushedOf {α : Type} : List (QEvent α) → List α
  | [] => []
  | QEvent.push x :: evs => x :: pushedOf evs
  | QEvent.pop :: evs => pushedOf evs

/-- Run a trace of events against the container, returning the final queue
contents and the values the pops returned, in order.  A pop against an
empty queue completes nothing (the real call blocks). -/
def runQueue {α : Type} : List (QEvent α) → List α → List α × List α
  | [], q => (q, [])
  | QEvent.push x :: evs, q => runQueue evs (Container.push q x)
  | QEvent.pop :: evs, q =>
    match Container.popFront q with
    | none => runQueue evs q
    | some p =>
      let r := runQueue evs p.2
      (r.1, p.1 :: r.2)

/-- The popped values followed by the leftover queue are exactly the
initial contents followed by the pushed values: FIFO order, nothing
duplicated, nothing dropped. -/
lemma runQueue_split {α : Type} :
    ∀ (evs : List (QEvent α)) (q : List α),
      (runQueue evs q).2 ++ (runQueue evs q).1 = q ++ pushedOf evs := by
  intro evs
  induction evs with
  | nil => intro q; simp [runQueue, pushedOf]
  | cons ev rest ih =>
    intro q
    cases ev with
    | push x =>
      rw [runQueue, pushedOf, ih (Container.push q x)]
      simp [Container.push]
    | pop =>
      cases q with
      | nil =>
        rw [runQueue]
        simpa [Container.popFront, pushedOf] using ih []
      | cons y ys =>
        rw [runQueue, pushedOf]
        simp only [Container.popFront]
        rw [List.cons_append, ih ys]
        simp

/-- Claim C7: for every trace of pushes P1..Pn interleaved with pop
attempts against an initially empty container, the sequence of popped
values followed by what remains queued is exactly P1..Pn — pops occur in
push order and no item is duplicated or dropped. -/
theorem container_fifo {α : Type} (evs : List (QEvent α)) :
    (runQueue evs ([] : List α)).2 ++ (runQueue evs ([] : List α)).1 =
      pushedOf evs :=
  runQueue_split evs []

/-! ### No input validation (C8) -/

/-- Claim C8: the record with both fields empty fails the (never consulted)
validity predicate, yet the pipeline step handles it exactly like any
other record: the same expiry trim, and then either a front insertion or
the erasure of the matched entry with a report — no rejection path
exists. -/
theorem invalid_record_processed (tLoop tExp : Timestamp) (buf : Buffer) :
    Message.IsValid ⟨"", ""⟩ = false ∧
    (find_best_match ⟨"", ""⟩ (remove_expired tExp buf) = none →
      (processStep tLoop tExp buf ⟨"", ""⟩).1 =
        (tLoop, ⟨"", ""⟩) :: remove_expired tExp buf) ∧
    (∀ i e, find_best_match ⟨"", ""⟩ (remove_expired tExp buf) = some i →
      (remove_expired tExp buf).get? i = some e →
      processStep tLoop tExp buf ⟨"", ""⟩ =
        ((remove_expired tExp buf).eraseIdx i,
          some ⟨score ⟨"", ""⟩ e.2, ⟨"", ""⟩, e.2⟩)) := by
  refine ⟨by decide, ?_, ?_⟩
  · intro h
    rw [processStep]
    simp [h]
  · intro i e hfind hget
    rw [List.get?_eq_getElem?] at hget
    rw [processStep]
    simp [hfind, hget]

/-- Witness for C8: the all-empty record is inserted as pending into an
empty buffer, and matched-and-erased against a pending all-empty entry. -/
theorem invalid_record_processed_witness :
    (processStep 3 3 [] ⟨"", ""⟩).1 =
      (3, ⟨"", ""⟩) :: remove_expired 3 [] ∧
    processStep 3 3 [(2, ⟨"", ""⟩)] ⟨"", ""⟩ =
      ((remove_expired 3 [(2, ⟨"", ""⟩)]).eraseIdx 0,
        some ⟨score ⟨"", ""⟩ ⟨"", ""⟩, ⟨"", ""⟩, ⟨"", ""⟩⟩) :=
  ⟨(invalid_record_processed 3 3 []).2.1 (by decide),
    (invalid_record_processed 3 3 [(2, ⟨"", ""⟩)]).2.2 0 (2, ⟨"", ""⟩)
      (by decide) (by decide)⟩

/-! ### Empty fields never disqualify (C10) -/

/-- Claim C10: field comparison is plain string equality with no special
case for emptiness — equal empty logins contribute 1 to the score, two
all-empty records score 2, and an all-empty incoming record matches an
unexpired all-empty pending entry, which is removed and reported with
score 2. -/
theorem empty_fields_score (m1 m2 : Message) :
    (m1.login = "" → m2.login = "" → 1 ≤ score m1 m2) ∧
    score ⟨"", ""⟩ ⟨"", ""⟩ = 2 ∧
    (∀ t0 tLoop tExp : Timestamp, secondsDiff tExp t0 < delay →
      processStep tLoop tExp [(t0, ⟨"", ""⟩)] ⟨"", ""⟩ =
        ([], some ⟨2, ⟨"", ""⟩, ⟨"", ""⟩⟩)) := by
  refine ⟨?_, by decide, ?_⟩
  · intro h1 h2
    rw [score]
    have : m1.login == m2.login := by rw [h1, h2]; decide
    rw [if_pos this]
    omega
  · intro t0 tLoop tExp hlive
    have hexp : isExpired tExp (t0, (⟨"", ""⟩ : Message)) = false := by
      simp [isExpired, Nat.not_le.mpr hlive]
    have hb : remove_expired tExp [(t0, (⟨"", ""⟩ : Message))] =
        [(t0, (⟨"", ""⟩ : Message))] := by
      simp [remove_expired, hexp]
    rw [processStep, hb]
    have hf : find_best_match ⟨"", ""⟩ [(t0, (⟨"", ""⟩ : Message))] =
        some 0 := by
      rw [find_best_match]
      simp [List.enum_cons, searchLoop, score]
    rw [hf]
    simp [score]

/-- Witness for C10: two all-empty records, pending entry from time 0,
step clocks at 1 nanosecond. -/
theorem empty_fields_score_witness :
    1 ≤ score ⟨"", ""⟩ ⟨"", ""⟩ ∧
    processStep 1 1 [(0, ⟨"", ""⟩)] ⟨"", ""⟩ =
      ([], some ⟨2, ⟨"", ""⟩, ⟨"", ""⟩⟩) :=
  ⟨(empty_fields_score ⟨"", ""⟩ ⟨"", ""⟩).1 rfl rfl,
    (empty_fields_score ⟨"", ""⟩ ⟨"", ""⟩).2.2 0 1 1 (by decide)⟩

/-! ### Consumer shutdown (C9)

The consumer loop (lines 175-206) as a transition system: its program
counter is at the `while` condition, at the `empty()` pre-check, or about
to `pop` and process; the environment may push records or set the
terminate flag (the destructor, line 211).  `pop` is only reached after
`empty()` returned false, and only producers touch the queue otherwise,
so a reached `pop` always finds an item and cannot block. -/

/-- Program counter of the consumer loop. -/
inductive PC where
  | checkFlag
  | checkEmpty
  | popMsg
  | done
deriving DecidableEq, Repr

/-- The state shared between the consumer loop, the producer and the
destructor: the loop position, `_terminate_flag`, the shared container's
contents, `_buffer`, and the report lines emitted so far. -/
structure SysState where
  pc : PC
  flag : Bool
  queue : List Message
  buf : Buffer
  reports : List Report

/-- The state after the consumer pops `m` and runs one pipeline step with
clocks `tLoop`, `tExp` (lines 179-203). -/
def afterPop (s : SysState) (m : Message) (rest : List Message)
    (tLoop tExp : Timestamp) : SysState :=
  ⟨PC.checkFlag, s.flag, rest, (processStep tLoop tExp s.buf m).1,
    s.reports ++ (processStep tLoop tExp s.buf m).2.toList⟩

/-- The consumer's own transitions (lines 175-203).  Popping consumes the
queue head — it is enabled only when the queue is non-empty, as the real
`pop` blocks otherwise — and runs one pipeline step with clocks chosen
by the environment. -/
inductive CStep : SysState → SysState → Prop
  | exitLoop {s : SysState} : s.pc = PC.checkFlag → s.flag = true →
      CStep s { s with pc := PC.done }
  | enterBody {s : SysState} : s.pc = PC.checkFlag → s.flag = false →
      CStep s { s with pc := PC.checkEmpty }
  | skipEmpty {s : SysState} : s.pc = PC.checkEmpty → s.queue = [] →
      CStep s { s with pc := PC.checkFlag }
  | seeItem {s : SysState} : s.pc = PC.checkEmpty → s.queue ≠ [] →
      CStep s { s with pc := PC.popMsg }
  | popProcess {s : SysState} (m : Message) (rest : List Message)
      (tLoop tExp : Timestamp) : s.pc = PC.popMsg → s.queue = m :: rest →
      CStep s (afterPop s m rest tLoop tExp)

/-- Environment transitions: the generator pushes a record (lines 49-54,
100), or the destructor sets the terminate flag (line 211).  Nothing
ever clears the flag, and nobody but the consumer removes queue items. -/
inductive EStep : SysState → SysState → Prop
  | push {s : SysState} (m : Message) :
      EStep s { s with queue := s.queue ++ [m] }
  | setStop {s : SysState} : EStep s { s with flag := true }

/-- Any interleaved transition. -/
def SysStep (s s' : SysState) : Prop := CStep s s' ∨ EStep s s'

/-- The state at thread start: loop entry, flag clear, everything empty. -/
def startState : SysState :=
  ⟨PC.checkFlag, false, [], [], []⟩

/-- States reachable under any interleaving of consumer and environment. -/
def SysReachable (s : SysState) : Prop :=
  Relation.ReflTransGen SysStep startState s

/-- The pop position is only reached with a non-empty queue, and no other
party shrinks the queue. -/
lemma sysReachable_pop_nonempty {s : SysState} (h : SysReachable s) :
    s.pc = PC.popMsg → s.queue ≠ [] := by
  induction h with
  | refl => intro hpc; simp [startState] at hpc
  | tail _ hstep ih =>
    rcases hstep with hc | he
    · cases hc with
      | exitLoop hpc hf => intro hd; simp at hd
      | enterBody hpc hf => intro hd; simp at hd
      | skipEmpty hpc hq => intro hd; simp at hd
      | seeItem hpc hq => intro _; exact hq
      | popProcess m rest tLoop tExp hpc hq =>
        intro hd; simp [afterPop] at hd
    · cases he with
      | push m =>
        intro hd
        simp only at hd
        have := ih hd
        simp [this]
      | setStop =>
        intro hd
        simp only at hd
        exact ih hd

/-- Claim C9: in every reachable state (a) a consumer at `pop` has an item
waiting, so it is never left blocked forever in `pop` during shutdown;
(b) once the terminate flag is set, the consumer reaches the exited state
by its own transitions; and (c) the exited state is final — no transition
leaves it and no report line is ever emitted afterwards. -/
theorem shutdown_terminates {s : SysState} (h : SysReachable s) :
    (s.pc = PC.popMsg → s.queue ≠ []) ∧
    (s.flag = true → ∃ s' : SysState,
      Relation.ReflTransGen CStep s s' ∧ s'.pc = PC.done) ∧
    (∀ s'' : SysState, s.pc = PC.done → SysStep s s'' →
      s''.pc = PC.done ∧ s''.reports = s.reports) := by
  refine ⟨sysReachable_pop_nonempty h, ?_, ?_⟩
  · intro hflag
    cases hpc : s.pc with
    | checkFlag =>
      exact ⟨{ s with pc := PC.done },
        Relation.ReflTransGen.single (CStep.exitLoop hpc hflag), rfl⟩
    | checkEmpty =>
      cases hq : s.queue with
      | nil =>
        refine ⟨{ s with pc := PC.done }, ?_, rfl⟩
        have h1 : CStep s { s with pc := PC.checkFlag } :=
          CStep.skipEmpty hpc hq
        have h2 : CStep { s with pc := PC.checkFlag }
            { s with pc := PC.done } := CStep.exitLoop rfl hflag
        exact Relation.ReflTransGen.head h1
          (Relation.ReflTransGen.single h2)
      | cons m rest =>
        have h1 : CStep s { s with pc := PC.popMsg } :=
          CStep.seeItem hpc (by simp [hq])
        have h2 : CStep { s with pc := PC.popMsg }
            (afterPop { s with pc := PC.popMsg } m rest 0 0) :=
          CStep.popProcess m rest 0 0 rfl (by simp [hq])
        have h3 : CStep (afterPop { s with pc := PC.popMsg } m rest 0 0)
            { afterPop { s with pc := PC.popMsg } m rest 0 0 with
                pc := PC.done } :=
          CStep.exitLoop rfl (by simpa [afterPop] using hflag)
        exact ⟨_, Relation.ReflTransGen.head h1
          (Relation.ReflTransGen.head h2
            (Relation.ReflTransGen.single h3)), rfl⟩
    | popMsg =>
      have hq := sysReachable_pop_nonempty h hpc
      cases hqe : s.queue with
      | nil => exact absurd hqe hq
      | cons m rest =>
        have h2 : CStep s (afterPop s m rest 0 0) :=
          CStep.popProcess m rest 0 0 hpc hqe
        have h3 : CStep (afterPop s m rest 0 0)
            { afterPop s m rest 0 0 with pc := PC.done } :=
          CStep.exitLoop rfl (by simpa [afterPop] using hflag)
        exact ⟨_, Relation.ReflTransGen.head h2
          (Relation.ReflTransGen.single h3), rfl⟩
    | done => exact ⟨s, Relation.ReflTransGen.refl, hpc⟩
  · intro s'' hdone hstep
    rcases hstep with hc | he
    · cases hc with
      | exitLoop hpc hf => rw [hdone] at hpc; cases hpc
      | enterBody hpc hf => rw [hdone] at hpc; cases hpc
      | skipEmpty hpc hq => rw [hdone] at hpc; cases hpc
      | seeItem hpc hq => rw [hdone] at hpc; cases hpc
      | popProcess m rest tLoop tExp hpc hq =>
        rw [hdone] at hpc; cases hpc
    · cases he with
      | push m => exact ⟨hdone, rfl⟩
      | setStop => exact ⟨hdone, rfl⟩

/-- Witness for C9: from the start state, the destructor's flag-set yields
a reachable flagged state from which the consumer exits on its own. -/
theorem shutdown_terminates_witness :
    ∃ s' : SysState,
      Relation.ReflTransGen CStep
        ⟨PC.checkFlag, true, [], [], []⟩ s' ∧ s'.pc = PC.done :=
  (shutdown_terminates
      (Relation.ReflTransGen.single (Or.inr EStep.setStop))).2.1 rfl

end GenSearch
